import Mathlib

/-!
Shallow embedding of the sentence-embedding notebook
`examples/nlp/ipynb/sentence_embeddings_with_sbert.ipynb`.

Tensors become functions out of `Fin`, float arithmetic becomes exact
arithmetic (`ℚ` where the code needs no square root, `ℝ` where it does),
and the pretrained encoder is an abstract function from sentences to
vectors, since the claims quantify over its output.
-/

namespace SBert

/-- Label rescaling `change_range(x) = (x / 2.5) - 1` from the notebook's
dataset-preparation cell. -/
def change_range (x : ℚ) : ℚ := (x / 2.5) - 1

/-- Dot product of two `d`-dimensional vectors; spec-side notion used to
describe what the model's matrix entries are. -/
def dotProd {d : ℕ} (u v : Fin d → ℚ) : ℚ := ∑ k, u k * v k

/-- Embedding of `tf.matmul(u, w)` for a `B×d` by `d×B` multiplication. -/
def tfMatmul {B d : ℕ} (u : Fin B → Fin d → ℚ) (w : Fin d → Fin B → ℚ) :
    Fin B → Fin B → ℚ :=
  fun i j => ∑ k, u i k * w k j

/-- Embedding of `tf.transpose(v)` for a `B×d` tensor. -/
def tfTranspose {B d : ℕ} (v : Fin B → Fin d → ℚ) : Fin d → Fin B → ℚ :=
  fun k j => v j k

/-- Embedding of the `RegressionSiamese` model body: the batch of `B`
examples carries two sentences each (`sentences i 0`, `sentences i 1`);
`u` encodes the first sentences, `v` the second, and the output is
`tf.matmul(u, tf.transpose(v))`, a `B×B` score tensor. -/
def regressionSiamese {S : Type} {B d : ℕ} (encoder : S → Fin d → ℚ)
    (sentences : Fin B → Fin 2 → S) : Fin B → Fin B → ℚ :=
  tfMatmul (fun i => encoder (sentences i 0))
    (tfTranspose (fun j => encoder (sentences j 1)))

/-- Swapping sentence order inside every pair of a batch (sentence A and
sentence B exchanged), used to state the symmetry claim. -/
def swapSentences {S : Type} {B : ℕ} (sentences : Fin B → Fin 2 → S) :
    Fin B → Fin 2 → S :=
  fun i k => if k = 0 then sentences i 1 else sentences i 0

/-- Modelled from the spec: the divisor of the masked mean in
`keras.layers.GlobalAveragePooling1D` (the layer's implementation lives in
the Keras library, outside this repository) — the number of mask-true
positions, as the sum of the 0/1-cast mask. -/
def maskCount {T : ℕ} (mask : Fin T → Bool) : ℚ :=
  ∑ t, if mask t then (1 : ℚ) else 0

/-- Modelled from the spec: `keras.layers.GlobalAveragePooling1D` applied
with a padding mask, as the notebook's `pooling_layer` uses it — hidden
states are multiplied by the 0/1-cast mask, summed over positions, and
divided by the mask count.  The layer's implementation lives in the Keras
library, outside this repository; the spec describes it as averaging
hidden states over positions where the mask is true. -/
def globalAveragePooling1D {T d : ℕ} (h : Fin T → Fin d → ℚ)
    (mask : Fin T → Bool) : Fin d → ℚ :=
  fun j => (∑ t, (if mask t then (1 : ℚ) else 0) * h t j) / maskCount mask

/-- Embedding of `tf.nn.relu` on a scalar. -/
def relu (x : ℚ) : ℚ := max x 0

/-- Per-example triplet loss body from `TripletLoss.call`:
`relu(positive_dist - negative_dist + margin)`. -/
def perExampleTripletLoss (dpos dneg margin : ℚ) : ℚ :=
  relu (dpos - dneg + margin)

/-- Concrete 1-dimensional encoder on four sentence ids, used to
instantiate the regression model on a batch of two pairs. -/
def encEx : Fin 4 → Fin 1 → ℚ := fun s _ => ![1, 0, 0, 1] s

/-- Concrete batch of two sentence pairs: example 0 holds sentences 0 and
1, example 1 holds sentences 2 and 3. -/
def sentsEx : Fin 2 → Fin 2 → Fin 4 := ![![0, 1], ![2, 3]]

/-- Embedding of the L2 norm that `tf.linalg.normalize` (default
euclidean order) divides by along `axis=1`. -/
noncomputable def l2norm {d : ℕ} (v : Fin d → ℝ) : ℝ :=
  Real.sqrt (∑ k, v k ^ 2)

/-- Embedding of `tf.linalg.normalize(embedding, axis=1)[0]` as applied to
one row: the vector divided componentwise by its L2 norm. -/
noncomputable def tfNormalize {d : ℕ} (v : Fin d → ℝ) : Fin d → ℝ :=
  fun k => v k / l2norm v

/-- Dot product over ℝ; spec-side notion for comparing normalized
embeddings. -/
def dotProdR {d : ℕ} (u v : Fin d → ℝ) : ℝ := ∑ k, u k * v k

/-- Cosine similarity of two vectors, the spec-side notion
`dot(u, v) / (|u| * |v|)`. -/
noncomputable def cosineSim {d : ℕ} (u v : Fin d → ℝ) : ℝ :=
  dotProdR u v / (l2norm u * l2norm v)

/-- Euclidean distance of two `d`-dimensional real vectors, taken from
Mathlib's `EuclideanSpace` metric; spec-side notion `||x - y||`. -/
noncomputable def euclideanDist {d : ℕ} (x y : Fin d → ℝ) : ℝ :=
  dist ((WithLp.equiv 2 (Fin d → ℝ)).symm x) ((WithLp.equiv 2 (Fin d → ℝ)).symm y)

/-- Embedding of the `TripletSiamese` model body: the three sentence
batches go through the one shared encoder, squared differences are summed
over the feature axis (`tf.math.reduce_sum(tf.math.pow(ea - ep, 2),
axis=1)`), square roots are taken, and the two distance rows are stacked
along axis 0 (`positive_dist` first). -/
noncomputable def tripletSiamese {S : Type} {B d : ℕ} (encoder : S → Fin d → ℝ)
    (anchor positive negative : Fin B → S) : Fin 2 → Fin B → ℝ :=
  ![fun i => Real.sqrt (∑ j, (encoder (anchor i) j - encoder (positive i) j) ^ 2),
    fun i => Real.sqrt (∑ j, (encoder (anchor i) j - encoder (negative i) j) ^ 2)]

/-- Embedding of the default value of the `margin` parameter in
`TripletLoss.__init__` (`margin=1`). -/
def defaultMargin : ℝ := 1

/-- Embedding of `tf.nn.relu` over ℝ. -/
def reluR (x : ℝ) : ℝ := max x 0

/-- Embedding of `TripletLoss.call`: unstack `y_pred` along axis 0 into
`positive_dist` and `negative_dist`, apply
`tf.nn.relu(positive_dist - negative_dist + margin)`, and take
`tf.math.reduce_mean` over axis 0 (the batch).  `yTrue` is an argument of
the Keras loss interface and is not read by the body. -/
noncomputable def tripletLossCall {B : ℕ} (margin : ℝ) (yTrue : Fin B → ℝ)
    (yPred : Fin 2 → Fin B → ℝ) : ℝ :=
  (∑ i, reluR (yPred 0 i - yPred 1 i + margin)) / (B : ℝ)

/-- Zero encoder on a one-sentence universe, used to instantiate the
triplet pipeline concretely. -/
def encZero : Fin 1 → Fin 1 → ℝ := fun _ _ => 0

/-- Constant one-example batch over the one-sentence universe. -/
def batchZero : Fin 1 → Fin 1 := fun _ => 0

/-- Row of the wikipedia-sections-triplets csv dataset. -/
structure WikiRow (S : Type) where
  Sentence1 : S
  Sentence2 : S
  Sentence3 : S

/-- Embedding of the mapping in `prepare_wiki_data`:
`lambda z: ((z["Sentence1"], z["Sentence2"], z["Sentence3"]), 0)` — every
triple gets the constant label 0. -/
def prepareWikiExample {S : Type} (z : WikiRow S) : (S × S × S) × ℝ :=
  ((z.Sentence1, z.Sentence2, z.Sentence3), 0)

end SBert

namespace SBert

/-- C7: the label-rescaling function maps every `x` into `x/2.5 - 1`
territory: it sends 0 to -1, 2.5 to 0 and 5 to 1, maps the whole interval
`[0, 5]` into `[-1, 1]`, and every value of `[-1, 1]` is hit from `[0, 5]`. -/
theorem change_range_spec (x y : ℚ) :
    change_range 0 = -1 ∧ change_range (5 / 2) = 0 ∧ change_range 5 = 1 ∧
    (0 ≤ x → x ≤ 5 → -1 ≤ change_range x ∧ change_range x ≤ 1) ∧
    (-1 ≤ y → y ≤ 1 → ∃ z, 0 ≤ z ∧ z ≤ 5 ∧ change_range z = y) := by
  refine ⟨by norm_num [change_range], by norm_num [change_range],
    by norm_num [change_range], fun h0 h5 => ⟨?_, ?_⟩, fun h1 h1' => ?_⟩
  · unfold change_range
    rw [show (2.5 : ℚ) = 5 / 2 by norm_num]
    linarith
  · unfold change_range
    rw [show (2.5 : ℚ) = 5 / 2 by norm_num]
    linarith
  · refine ⟨2.5 * (y + 1), by linarith, by linarith, ?_⟩
    unfold change_range
    ring

/-- Witness for `change_range_spec` at `x = 3`, `y = 0`. -/
theorem change_range_spec_witness :
    ((0 : ℚ) ≤ 3 ∧ (3 : ℚ) ≤ 5 ∧
      (-1 ≤ change_range 3 ∧ change_range 3 ≤ 1)) ∧
    ((-1 : ℚ) ≤ 0 ∧ (0 : ℚ) ≤ 1 ∧
      ∃ z, 0 ≤ z ∧ z ≤ 5 ∧ change_range z = 0) :=
  ⟨⟨by norm_num, by norm_num,
      (change_range_spec 3 0).2.2.2.1 (by norm_num) (by norm_num)⟩,
    ⟨by norm_num, by norm_num,
      (change_range_spec 3 0).2.2.2.2 (by norm_num) (by norm_num)⟩⟩

/-- C1 counterexample: on a concrete batch of two pairs the
`RegressionSiamese` output is not one own-pair scalar per example — the
score tensor carries, for example 0, the entry
`dot(u 0, v 1)` which differs from example 0's own-pair dot product
`dot(u 0, v 0)`. -/
theorem regressionSiamese_not_per_example :
    regressionSiamese encEx sentsEx 0 1 ≠
      dotProd (encEx (sentsEx 0 0)) (encEx (sentsEx 0 1)) := by
  intro h01
  simp [regressionSiamese, tfMatmul, tfTranspose, dotProd, encEx, sentsEx,
    Fin.sum_univ_one] at h01

/-- C1 amended: the `RegressionSiamese` model outputs a `B×B` matrix of
scores whose `(i, j)` entry is the dot product of example `i`'s
first-sentence embedding with example `j`'s second-sentence embedding;
each example's own-pair similarity is the diagonal entry `(i, i)`, so the
output is one scalar per example only when the batch has one example. -/
theorem regressionSiamese_matrix {S : Type} {B d : ℕ} (encoder : S → Fin d → ℚ)
    (sentences : Fin B → Fin 2 → S) (i j : Fin B) :
    regressionSiamese encoder sentences i j =
      dotProd (encoder (sentences i 0)) (encoder (sentences j 1)) ∧
    regressionSiamese encoder sentences i i =
      dotProd (encoder (sentences i 0)) (encoder (sentences i 1)) :=
  ⟨rfl, rfl⟩

/-- C6 counterexample: swapping the sentence order of every pair of a
concrete batch of two pairs changes the `RegressionSiamese` output (the
off-diagonal scores move to their transposed places). -/
theorem regressionSiamese_swap_counterexample :
    regressionSiamese encEx (swapSentences sentsEx) 0 1 ≠
      regressionSiamese encEx sentsEx 0 1 := by
  intro h01
  simp [regressionSiamese, tfMatmul, tfTranspose, swapSentences, encEx, sentsEx,
    Fin.sum_univ_one] at h01

/-- C6 amended: swapping the two sentences of every pair transposes the
`B×B` score matrix; in particular the diagonal own-pair scores — and
hence the whole output on a batch of one example — are unchanged. -/
theorem regressionSiamese_swap {S : Type} {B d : ℕ} (encoder : S → Fin d → ℚ)
    (sentences : Fin B → Fin 2 → S) :
    (∀ i j, regressionSiamese encoder (swapSentences sentences) i j =
      regressionSiamese encoder sentences j i) ∧
    (∀ i, regressionSiamese encoder (swapSentences sentences) i i =
      regressionSiamese encoder sentences i i) := by
  constructor
  · intro i j
    simp only [regressionSiamese, tfMatmul, tfTranspose, swapSentences]
    simp only [show (1 : Fin 2) ≠ 0 by decide, if_true, if_false, reduceIte]
    exact Finset.sum_congr rfl fun k _ => mul_comm _ _
  · intro i
    simp only [regressionSiamese, tfMatmul, tfTranspose, swapSentences]
    simp only [show (1 : Fin 2) ≠ 0 by decide, if_true, if_false, reduceIte]
    exact Finset.sum_congr rfl fun k _ => mul_comm _ _

/-- C5 counterexample: with a negative margin the per-example triplet
loss at equal distances is 0, not the margin — at
`d_pos = d_neg = 0`, `margin = -1` the loss is `max(-1, 0) = 0 ≠ -1`. -/
theorem perExampleTripletLoss_negative_margin :
    perExampleTripletLoss 0 0 (-1) = 0 ∧
    perExampleTripletLoss 0 0 (-1) ≠ -1 := by
  constructor <;> norm_num [perExampleTripletLoss, relu]

/-- C5 amended: the per-example triplet loss `max(d_pos - d_neg + m, 0)`
is exactly 0 when `d_pos < d_neg - m`, is exactly `m` when `d_pos = d_neg`
provided the margin `m` is nonnegative, and is never negative. -/
theorem perExampleTripletLoss_spec (dpos dneg margin : ℚ) :
    (dpos < dneg - margin → perExampleTripletLoss dpos dneg margin = 0) ∧
    (0 ≤ margin → dpos = dneg → perExampleTripletLoss dpos dneg margin = margin) ∧
    0 ≤ perExampleTripletLoss dpos dneg margin := by
  refine ⟨fun hlt => ?_, fun hm he => ?_, ?_⟩
  · unfold perExampleTripletLoss relu
    exact max_eq_right (by linarith)
  · unfold perExampleTripletLoss relu
    rw [he, sub_self, zero_add]
    exact max_eq_left hm
  · unfold perExampleTripletLoss relu
    exact le_max_right _ _

/-- Witness for `perExampleTripletLoss_spec`: at `(1, 3, 1)` the distance
gap satisfies the hinge and the loss is 0; at `(2, 2, 1)` the distances
are equal, the margin is nonnegative, and the loss is the margin. -/
theorem perExampleTripletLoss_spec_witness :
    ((1 : ℚ) < 3 - 1 ∧ perExampleTripletLoss 1 3 1 = 0) ∧
    ((0 : ℚ) ≤ 1 ∧ (2 : ℚ) = 2 ∧ perExampleTripletLoss 2 2 1 = 1) :=
  ⟨⟨by norm_num, (perExampleTripletLoss_spec 1 3 1).1 (by norm_num)⟩,
    ⟨by norm_num, rfl, (perExampleTripletLoss_spec 2 2 1).2.1 (by norm_num) rfl⟩⟩

/-- C4: for a sentence with at least one non-padded token, the masked
global average pooling equals the arithmetic mean of exactly the hidden
vectors at mask-true positions, and changing the hidden vectors at
mask-false positions never changes the pooled result. -/
theorem globalAveragePooling1D_mean {T d : ℕ} (h : Fin T → Fin d → ℚ)
    (mask : Fin T → Bool) (hk : ∃ t, mask t = true) :
    (∀ j, globalAveragePooling1D h mask j =
      (∑ t ∈ Finset.univ.filter fun t => mask t = true, h t j) /
        ((Finset.univ.filter fun t : Fin T => mask t = true).card : ℚ)) ∧
    (∀ h' : Fin T → Fin d → ℚ, (∀ t, mask t = true → h' t = h t) →
      globalAveragePooling1D h' mask = globalAveragePooling1D h mask) := by
  have hnum : ∀ (g : Fin T → Fin d → ℚ) (j : Fin d),
      (∑ t, (if mask t then (1 : ℚ) else 0) * g t j) =
        ∑ t ∈ Finset.univ.filter fun t => mask t = true, g t j := by
    intro g j
    rw [Finset.sum_filter]
    refine Finset.sum_congr rfl fun t _ => ?_
    by_cases hm : mask t <;> simp [hm]
  have hden : maskCount mask =
      ((Finset.univ.filter fun t : Fin T => mask t = true).card : ℚ) := by
    unfold maskCount
    rw [Finset.sum_boole]
  constructor
  · intro j
    unfold globalAveragePooling1D
    rw [hnum h j, hden]
  · intro h' hsame
    funext j
    unfold globalAveragePooling1D
    rw [hnum h j, hnum h' j]
    congr 1
    exact Finset.sum_congr rfl fun t ht => by
      rw [hsame t (Finset.mem_filter.mp ht).2]

/-- Witness for `globalAveragePooling1D_mean` on a two-token sentence
whose first token is the only non-padded one. -/
theorem globalAveragePooling1D_mean_witness :
    (∃ t : Fin 2, ![true, false] t = true) ∧
    ((∀ j, globalAveragePooling1D (fun t (_ : Fin 1) => ![(10 : ℚ), 99] t)
        ![true, false] j =
      (∑ t ∈ Finset.univ.filter fun t => ![true, false] t = true,
        (fun t (_ : Fin 1) => ![(10 : ℚ), 99] t) t j) /
        ((Finset.univ.filter fun t : Fin 2 => ![true, false] t = true).card : ℚ)) ∧
    (∀ h' : Fin 2 → Fin 1 → ℚ,
      (∀ t, ![true, false] t = true →
        h' t = (fun t (_ : Fin 1) => ![(10 : ℚ), 99] t) t) →
      globalAveragePooling1D h' ![true, false] =
        globalAveragePooling1D (fun t (_ : Fin 1) => ![(10 : ℚ), 99] t)
          ![true, false])) :=
  ⟨⟨0, rfl⟩, globalAveragePooling1D_mean _ _ ⟨0, rfl⟩⟩

/-- C3 counterexample: the pooling divisor is not always nonzero — the
mean-pooling layer applies its division unconditionally, and a concrete
two-token sentence whose mask is everywhere false reaches that division
with divisor 0, so the all-padded case is not rejected or guarded. -/
theorem maskCount_zero_counterexample :
    maskCount (fun _ : Fin 2 => false) = 0 := by
  simp [maskCount]

/-- C3 amended: the mean-pooling layer itself performs no rejection or
guard — an all-padded sentence reaches the division with divisor 0 — but
under the precondition of at least one non-padded token the divisor is
strictly positive, so no division by zero occurs. -/
theorem maskCount_pos {T : ℕ} (mask : Fin T → Bool) (hk : ∃ t, mask t = true) :
    0 < maskCount mask ∧ maskCount mask ≠ 0 := by
  obtain ⟨t0, ht0⟩ := hk
  have hpos : 0 < maskCount mask := by
    unfold maskCount
    refine Finset.sum_pos' (fun t _ => by split <;> norm_num) ?_
    exact ⟨t0, Finset.mem_univ t0, by simp [ht0]⟩
  exact ⟨hpos, ne_of_gt hpos⟩

/-- Witness for `maskCount_pos` on the mask `[true, false]`. -/
theorem maskCount_pos_witness :
    (∃ t : Fin 2, ![true, false] t = true) ∧
    (0 < maskCount ![true, false] ∧ maskCount ![true, false] ≠ 0) :=
  ⟨⟨0, rfl⟩, maskCount_pos _ ⟨0, rfl⟩⟩

/-- Helper: the code's square root of the summed squared differences is
Mathlib's Euclidean distance. -/
theorem euclideanDist_sqrt {d : ℕ} (x y : Fin d → ℝ) :
    euclideanDist x y = Real.sqrt (∑ j, (x j - y j) ^ 2) := by
  unfold euclideanDist
  rw [EuclideanSpace.dist_eq]
  congr 1
  exact Finset.sum_congr rfl fun j _ => by
    rw [Real.dist_eq, sq_abs]
    rfl

/-- C2: for every shared encoder and every nonempty batch of
(anchor, positive, negative) triples, the `TripletLoss` with its default
margin applied to the `TripletSiamese` output equals the mean over the
batch of `max(d_pos - d_neg + 1, 0)`, where `d_pos` and `d_neg` are the
Euclidean distances between the anchor embedding and the positive and
negative embeddings of that example. -/
theorem tripletSiamese_loss_spec {S : Type} {B d : ℕ} (encoder : S → Fin d → ℝ)
    (anchor positive negative : Fin B → S) (yTrue : Fin B → ℝ) (hB : 0 < B) :
    tripletLossCall defaultMargin yTrue
        (tripletSiamese encoder anchor positive negative) =
      (∑ i, max (euclideanDist (encoder (anchor i)) (encoder (positive i)) -
        euclideanDist (encoder (anchor i)) (encoder (negative i)) + 1) 0) /
        (B : ℝ) := by
  unfold tripletLossCall defaultMargin
  congr 1
  refine Finset.sum_congr rfl fun i _ => ?_
  unfold reluR
  rw [euclideanDist_sqrt, euclideanDist_sqrt]
  simp [tripletSiamese]

/-- Witness for `tripletSiamese_loss_spec` on a one-example batch with
the zero encoder. -/
theorem tripletSiamese_loss_spec_witness :
    (0 : ℕ) < 1 ∧
    tripletLossCall defaultMargin (fun _ : Fin 1 => 0)
        (tripletSiamese encZero batchZero batchZero batchZero) =
      (∑ i, max (euclideanDist (encZero (batchZero i)) (encZero (batchZero i)) -
        euclideanDist (encZero (batchZero i)) (encZero (batchZero i)) + 1) 0) /
        ((1 : ℕ) : ℝ) :=
  ⟨Nat.one_pos,
    tripletSiamese_loss_spec encZero batchZero batchZero batchZero _ Nat.one_pos⟩

/-- C9: when the anchor and positive batches are identical, the
`TripletSiamese` positive-distance row is 0 (the shared encoder maps the
same input to the same embedding), so each example's triplet loss is
`max(-d_neg + margin, 0)`. -/
theorem tripletSiamese_anchor_positive_eq {S : Type} {B d : ℕ}
    (encoder : S → Fin d → ℝ) (anchor negative : Fin B → S) (margin : ℝ)
    (i : Fin B) :
    tripletSiamese encoder anchor anchor negative 0 i = 0 ∧
    reluR (tripletSiamese encoder anchor anchor negative 0 i -
        tripletSiamese encoder anchor anchor negative 1 i + margin) =
      max (-(tripletSiamese encoder anchor anchor negative 1 i) + margin) 0 := by
  have h0 : tripletSiamese encoder anchor anchor negative 0 i = 0 := by
    simp [tripletSiamese]
  refine ⟨h0, ?_⟩
  rw [h0, zero_sub]
  rfl

/-- C10: `TripletLoss.call` does not read its `y_true` argument — any two
label tensors give the same loss on the same `y_pred` — and the dataset
preparation attaches the constant label 0 to every triple. -/
theorem tripletLossCall_ignores_yTrue {S : Type} {B : ℕ} (margin : ℝ)
    (y1 y2 : Fin B → ℝ) (yPred : Fin 2 → Fin B → ℝ) (z : WikiRow S) :
    tripletLossCall margin y1 yPred = tripletLossCall margin y2 yPred ∧
    (prepareWikiExample z).2 = 0 :=
  ⟨rfl, rfl⟩

/-- Helper: a nonzero vector has a strictly positive sum of squares. -/
theorem sum_sq_pos_of_ne_zero {d : ℕ} {v : Fin d → ℝ} (hv : v ≠ 0) :
    0 < ∑ k, v k ^ 2 := by
  obtain ⟨k0, hk0⟩ := Function.ne_iff.mp hv
  refine Finset.sum_pos' (fun k _ => sq_nonneg _) ⟨k0, Finset.mem_univ k0, ?_⟩
  exact lt_of_le_of_ne (sq_nonneg _) (Ne.symm (pow_ne_zero 2 hk0))

/-- C8: for nonzero vectors, the normalization step of the regression
encoder produces a vector of unit L2 norm that is a positive scalar
multiple of its input, and the dot product of two normalized vectors is
the cosine similarity of the originals. -/
theorem tfNormalize_spec {d : ℕ} (u v : Fin d → ℝ) (hu : u ≠ 0) (hv : v ≠ 0) :
    l2norm (tfNormalize v) = 1 ∧
    (∃ c : ℝ, 0 < c ∧ ∀ k, tfNormalize v k = c * v k) ∧
    dotProdR (tfNormalize u) (tfNormalize v) = cosineSim u v := by
  have hsum : 0 < ∑ k, v k ^ 2 := sum_sq_pos_of_ne_zero hv
  have hs : 0 < l2norm v := Real.sqrt_pos.mpr hsum
  refine ⟨?_, ⟨(l2norm v)⁻¹, inv_pos.mpr hs, fun k => ?_⟩, ?_⟩
  · have hsum2 : ∑ k, tfNormalize v k ^ 2 = (∑ k, v k ^ 2) / l2norm v ^ 2 := by
      rw [Finset.sum_div]
      exact Finset.sum_congr rfl fun k _ => div_pow _ _ _
    have hsq : l2norm v ^ 2 = ∑ k, v k ^ 2 := Real.sq_sqrt hsum.le
    show Real.sqrt (∑ k, tfNormalize v k ^ 2) = 1
    rw [hsum2, hsq, div_self (ne_of_gt hsum), Real.sqrt_one]
  · show v k / l2norm v = (l2norm v)⁻¹ * v k
    rw [div_eq_mul_inv, mul_comm]
  · unfold cosineSim dotProdR tfNormalize
    rw [Finset.sum_div]
    exact Finset.sum_congr rfl fun k _ => div_mul_div_comm _ _ _ _

/-- Witness for `tfNormalize_spec` at `u = v = (3, 4)`. -/
theorem tfNormalize_spec_witness :
    (![(3 : ℝ), 4] ≠ 0) ∧
    (l2norm (tfNormalize ![(3 : ℝ), 4]) = 1 ∧
     (∃ c : ℝ, 0 < c ∧ ∀ k, tfNormalize ![(3 : ℝ), 4] k = c * ![(3 : ℝ), 4] k) ∧
     dotProdR (tfNormalize ![(3 : ℝ), 4]) (tfNormalize ![(3 : ℝ), 4]) =
       cosineSim ![(3 : ℝ), 4] ![(3 : ℝ), 4]) := by
  have hne : (![(3 : ℝ), 4]) ≠ 0 := by
    intro h
    have h0 := congrFun h 0
    norm_num at h0
  exact ⟨hne, tfNormalize_spec _ _ hne hne⟩

end SBert
